import Mathlib

/-!
Shallow embedding of the `yolo.ipynb` notebook of the `object-detection`
repository: the detection post-processing routine `parse_layers`, the
annotation routine `label_frame`, the label/colour tables, and the video
frame loop.  Floating-point values are modelled as rationals; library
primitives that the notebook merely invokes (the network forward pass,
`cv2.dnn.NMSBoxes`, drawing, video I/O) are abstracted as function
parameters or event records.
-/

/-- Truncation of a rational toward zero, the behaviour of Python `int(...)`
and of numpy `astype("int")` on the values involved. -/
def qtrunc (q : ℚ) : Int := Int.tdiv q.num q.den

/-- Constant `CONFIDENCE = 0.7`: minimum class probability required to
retain a candidate detection (the decimal literal 0.7 as the rational
7/10). -/
def CONFIDENCE : ℚ := mkRat 7 10

/-- Constant `THRESHOLD = 0.3`: the non-maximum-suppression threshold (the
decimal literal 0.3 as the rational 3/10). -/
def THRESHOLD : ℚ := mkRat 3 10

/-- Worker for `argmax`: scans the remaining list `xs`, where `i` is the
index (in the original list) of the head of `xs` and `best` is the best
(index, value) pair seen so far.  A strict comparison keeps the first
occurrence of the maximum, as `np.argmax` does. -/
def argmaxPair : List ℚ → Nat → Nat × ℚ → Nat × ℚ
  | [], _, best => best
  | x :: xs, i, best =>
      if x > best.2 then argmaxPair xs (i + 1) (i, x)
      else argmaxPair xs (i + 1) best

/-- Index of the first maximal element of a list, as `np.argmax`
(0 on the empty list, on which numpy would raise). -/
def argmax : List ℚ → Nat
  | [] => 0
  | x :: xs => (argmaxPair xs 1 (0, x)).1

/-- The per-detection class score slice `scores = detection[5:]`. -/
def detScores (d : List ℚ) : List ℚ := d.drop 5

/-- The per-detection class id `classID = np.argmax(scores)`. -/
def detClassID (d : List ℚ) : Nat := argmax (detScores d)

/-- The per-detection confidence `confidence = scores[classID]`
(out-of-range reads, impossible for nonempty scores, default to 0). -/
def detConfidence (d : List ℚ) : ℚ := (detScores d).getD (detClassID d) 0

/-- Output triple of `parse_layers`: bounding boxes, confidences, class ids. -/
abbrev ParseOut := List (List Int) × List ℚ × List Nat

/-- Body of the inner loop of `parse_layers` for a single detection vector:
if the confidence exceeds `CONFIDENCE`, scale `detection[0:4]` by
`[W, H, W, H]`, truncate to integers, derive the top-left corner, and
append box, confidence and class id to the three accumulator lists. -/
def parseDetection (H W : ℚ) (d : List ℚ) (acc : ParseOut) : ParseOut :=
  if detConfidence d > CONFIDENCE then
    let box := List.zipWith (· * ·) (d.take 4) [W, H, W, H]
    let boxI := box.map qtrunc
    let centerX := boxI.getD 0 0
    let centerY := boxI.getD 1 0
    let width := boxI.getD 2 0
    let height := boxI.getD 3 0
    let x := qtrunc ((centerX : ℚ) - (width : ℚ) / 2)
    let y := qtrunc ((centerY : ℚ) - (height : ℚ) / 2)
    (acc.1 ++ [[x, y, width, height]],
     acc.2.1 ++ [detConfidence d],
     acc.2.2 ++ [detClassID d])
  else acc

/-- The notebook's `parse_layers(layer_outputs, H, W, boxes, confidences,
classIDs)`.  In Python the three trailing parameters are mutable default
arguments created once at definition time and mutated in place by
`append`; a call site using the defaults therefore receives the lists
accumulated by all earlier default-argument calls.  The embedding makes
the accumulator explicit: callers that model the default-argument call
pass the persistent lists through. -/
def parse_layers (layer_outputs : List (List (List ℚ))) (H W : ℚ)
    (boxes : List (List Int)) (confidences : List ℚ) (classIDs : List Nat) :
    ParseOut :=
  layer_outputs.foldl
    (fun acc output => output.foldl (fun a d => parseDetection H W d a) acc)
    (boxes, confidences, classIDs)

/-- The `LABELS` table: the label file's contents stripped of leading and
trailing whitespace and split on newline. -/
def LABELS_of (contents : String) : List String :=
  contents.trim.splitOn "\n"

/-- The `COLORS` table: `np.random.randint(0, 255, size=(len(LABELS), 3),
dtype="uint8")`, one 3-component row per label.  The seeded random source
is abstracted as a function `rand`; `% 255` records `randint`'s exclusive
upper bound. -/
def COLORS_of (rand : Nat → Nat → Nat) (labels : List String) :
    List (List Nat) :=
  (List.range labels.length).map fun i =>
    (List.range 3).map fun j => rand i j % 255

/-- Drawing primitive applied to an image: `cv2.rectangle` with its two
corner points, colour and thickness, or `cv2.putText` with the label
string, the confidence being formatted, the text origin and colour. -/
inductive DrawOp where
  | rect (pt1 pt2 : Int × Int) (color : List Nat) (thickness : Nat)
  | text (label : String) (conf : ℚ) (org : Int × Int) (color : List Nat)
deriving DecidableEq, Repr

/-- An image or video frame: its spatial dimensions (`frame.shape[:2]` is
`(height, width)`) and the ordered record of drawing operations applied
to it, standing for its mutated pixel content. -/
structure Frame where
  height : Nat
  width : Nat
  ops : List DrawOp := []
deriving DecidableEq, Repr

/-- Signature of `cv2.dnn.NMSBoxes` as the notebook uses it: from the boxes,
confidences and the two thresholds it returns the (flattened) list of kept
indices.  It is a library primitive and is kept abstract. -/
abbrev NMSFun := List (List Int) → List ℚ → ℚ → ℚ → List Nat

/-- The two drawing operations the loop body of `label_frame` performs for
a kept index `i`: a rectangle from `(x, y)` to `(x + w, y + h)` and a text
label `LABELS[classIDs[i]]` with the confidence, placed at `(x, y - 5)`,
both in colour `COLORS[classIDs[i]]` with thickness 2. -/
def drawOpsFor (LABELS : List String) (COLORS : List (List Nat))
    (boxes : List (List Int)) (confidences : List ℚ) (classIDs : List Nat)
    (i : Nat) : List DrawOp :=
  let x := (boxes.getD i []).getD 0 0
  let y := (boxes.getD i []).getD 1 0
  let w := (boxes.getD i []).getD 2 0
  let h := (boxes.getD i []).getD 3 0
  let color := COLORS.getD (classIDs.getD i 0) []
  [DrawOp.rect (x, y) (x + w, y + h) color 2,
   DrawOp.text (LABELS.getD (classIDs.getD i 0) "") (confidences.getD i 0)
     (x, y - 5) color]

/-- One iteration of the annotation loop: mutating the image appends the
two drawing operations for index `i`. -/
def drawDetection (LABELS : List String) (COLORS : List (List Nat))
    (boxes : List (List Int)) (confidences : List ℚ) (classIDs : List Nat)
    (img : Frame) (i : Nat) : Frame :=
  { img with ops := img.ops ++ drawOpsFor LABELS COLORS boxes confidences classIDs i }

/-- The notebook's `label_frame(image, boxes, confidences, classIDs)`:
apply `cv2.dnn.NMSBoxes`, and if at least one index is kept, draw a
rectangle and a text label for each kept index. -/
def label_frame (LABELS : List String) (COLORS : List (List Nat))
    (nms : NMSFun) (image : Frame) (boxes : List (List Int))
    (confidences : List ℚ) (classIDs : List Nat) : Frame :=
  let idxs := nms boxes confidences CONFIDENCE THRESHOLD
  if idxs.length > 0 then
    idxs.foldl (drawDetection LABELS COLORS boxes confidences classIDs) image
  else image

/-- The `cv2.VideoWriter` handle: its construction parameters and, in
order, the frames written to it. -/
structure VideoWriter where
  fourcc : String
  fps : Nat
  frameSize : Nat × Nat
  isColor : Bool
  written : List Frame
deriving DecidableEq, Repr

/-- The `cv2.VideoCapture` handle: the sequence of results that successive
`vs.read()` calls yield (`none` models `grabbed == False`), its reported
frame width and height properties, and the `CAP_PROP_FRAME_COUNT` property
(`none` models the property read raising). -/
structure VideoCapture where
  reads : List (Option Frame)
  capWidth : Nat
  capHeight : Nat
  frameCountProp : Option Int
deriving DecidableEq, Repr

/-- Mutable state threaded through the video frame loop: the frame
dimensions `(H, W)` grabbed from the first frame, the writer handle with
its initialisation count, counters for the blob constructions and forward
passes performed, the persistent lists behind `parse_layers`' mutable
default arguments, and the trace of per-frame `parse_layers` results. -/
structure LoopState where
  dims : Option (Nat × Nat)
  writer : Option VideoWriter
  writerInits : Nat
  blobCount : Nat
  forwardCount : Nat
  sharedBoxes : List (List Int)
  sharedConfs : List ℚ
  sharedIDs : List Nat
  parsedTrace : List ParseOut
deriving DecidableEq, Repr

/-- The loop state before the first iteration: no dimensions, `writer =
None`, and the default-argument lists of `parse_layers` empty, as they are
when the function definition is evaluated. -/
def initState : LoopState :=
  { dims := none, writer := none, writerInits := 0, blobCount := 0,
    forwardCount := 0, sharedBoxes := [], sharedConfs := [], sharedIDs := [],
    parsedTrace := [] }

/-- Body of the video loop for one successfully grabbed frame: grab `(H, W)`
if unset, construct a blob and run the forward pass (`forward` abstracts
`blobFromImage`/`net.forward`; both counters record one call each),
call `parse_layers(layer_outputs, H, W)` — which in Python receives and
mutates the persistent default-argument lists — annotate the frame with
`label_frame`, initialise the writer on first need with MJPG encoding,
30 fps and size `(frame_height, frame_width)`, and write the frame. -/
def processFrame (LABELS : List String) (COLORS : List (List Nat))
    (nms : NMSFun) (forward : Frame → List (List (List ℚ)))
    (capW capH : Nat) (st : LoopState) (frame : Frame) : LoopState :=
  let dims := match st.dims with
    | none => (frame.height, frame.width)
    | some hw => hw
  let layer_outputs := forward frame
  let parsed := parse_layers layer_outputs (dims.1 : ℚ) (dims.2 : ℚ)
    st.sharedBoxes st.sharedConfs st.sharedIDs
  let annotated := label_frame LABELS COLORS nms frame parsed.1 parsed.2.1 parsed.2.2
  let wi : VideoWriter × Nat := match st.writer with
    | none =>
        ({ fourcc := "MJPG", fps := 30, frameSize := (capH, capW),
           isColor := true, written := [] }, st.writerInits + 1)
    | some w => (w, st.writerInits)
  { dims := some dims,
    writer := some { wi.1 with written := wi.1.written ++ [annotated] },
    writerInits := wi.2,
    blobCount := st.blobCount + 1,
    forwardCount := st.forwardCount + 1,
    sharedBoxes := parsed.1, sharedConfs := parsed.2.1, sharedIDs := parsed.2.2,
    parsedTrace := st.parsedTrace ++ [parsed] }

/-- The `while True` frame loop: read the next frame, break as soon as a
read fails to grab one, otherwise process the frame and continue. -/
def frameLoop (LABELS : List String) (COLORS : List (List Nat))
    (nms : NMSFun) (forward : Frame → List (List (List ℚ)))
    (capW capH : Nat) : List (Option Frame) → LoopState → LoopState
  | [], st => st
  | none :: _, st => st
  | some f :: rest, st =>
      frameLoop LABELS COLORS nms forward capW capH rest
        (processFrame LABELS COLORS nms forward capW capH st f)

/-- The frames the loop actually processes: the successful reads before the
first failed one. -/
def grabbedFrames (reads : List (Option Frame)) : List Frame :=
  (reads.takeWhile Option.isSome).filterMap id

/-- End state of the video script after the loop: the loop state and how
often each handle was released. -/
structure ScriptEnd where
  state : LoopState
  writerReleases : Nat
  capReleases : Nat
deriving DecidableEq, Repr

/-- The video portion of the notebook, from reading the frame-count
property to the final releases: compute `total` (with the `except` fallback
printing two warnings and setting `total = -1`), run the frame loop, then
`writer.release()` and `vs.release()`.  When no frame was ever grabbed the
writer is still `None` and `writer.release()` raises an `AttributeError`,
so the capture is never released and `"All done!"` is never printed; the
result is the printed lines, `total`, and either the error or the end
state. -/
def runVideoScript (LABELS : List String) (COLORS : List (List Nat))
    (nms : NMSFun) (forward : Frame → List (List (List ℚ)))
    (cap : VideoCapture) : List String × Int × Except String ScriptEnd :=
  let tm : Int × List String := match cap.frameCountProp with
    | some t => (t, ["total frames in video: " ++ toString t])
    | none =>
        (-1, ["Error: could not determine # of frames in video",
              "Error: no approx. completion time can be provided"])
  let st := frameLoop LABELS COLORS nms forward cap.capWidth cap.capHeight
    cap.reads initState
  match st.writer with
  | none =>
      (tm.2, tm.1,
       Except.error "AttributeError: NoneType object has no attribute release")
  | some _ =>
      (tm.2 ++ ["All done!"], tm.1,
       Except.ok { state := st, writerReleases := 1, capReleases := 1 })

/-- Invariant tying a `parse_layers` accumulator to a label count `L`: the
three lists have equal lengths and every recorded class id is below `L`. -/
def ParseInv (L : Nat) (t : ParseOut) : Prop :=
  t.1.length = t.2.1.length ∧ t.2.1.length = t.2.2.length ∧
    ∀ c ∈ t.2.2, c < L

/-- Number of frames written to the writer so far (0 while it is `None`). -/
def writtenLen (st : LoopState) : Nat :=
  match st.writer with
  | none => 0
  | some w => w.written.length

/-- Construction parameters of the writer handle, when it exists: MJPG
encoding, 30 frames per second, colour output, and frame size
`(frame_height, frame_width)` read from the capture properties in that
transposed order. -/
def writerSpec (capW capH : Nat) (st : LoopState) : Prop :=
  ∀ w, st.writer = some w →
    w.fourcc = "MJPG" ∧ w.fps = 30 ∧ w.frameSize = (capH, capW) ∧
      w.isColor = true

/-- Example non-maximum-suppression behaviour keeping every candidate box,
used to instantiate the abstract `cv2.dnn.NMSBoxes` parameter on concrete
runs. -/
def exNMS : NMSFun := fun boxes _ _ _ => List.range boxes.length

/-- Example detection vector: centre (1/2, 1/2), size (1/4, 1/4),
objectness 9/10 and a single class score 9/10, above `CONFIDENCE`. -/
def exDet : List ℚ :=
  [mkRat 1 2, mkRat 1 2, mkRat 1 4, mkRat 1 4, mkRat 9 10, mkRat 9 10]

/-- Example forward pass: yields the detection `exDet` on 416-pixel-high
frames and nothing on any other frame. -/
def exForward : Frame → List (List (List ℚ)) := fun f =>
  if f.height = 416 then [[exDet]] else []

/-- First example frame: 416 × 416, one detection under `exForward`. -/
def exFrame1 : Frame := { height := 416, width := 416, ops := [] }

/-- Second example frame: 100 × 100, no detections under `exForward`. -/
def exFrame2 : Frame := { height := 100, width := 100, ops := [] }


/-! ### Properties of `argmax` -/

/-- The value returned by `argmaxPair` dominates the running best and every
remaining element. -/
theorem argmaxPair_isMax (xs : List ℚ) : ∀ (i : Nat) (b : Nat × ℚ),
    b.2 ≤ (argmaxPair xs i b).2 ∧ ∀ s ∈ xs, s ≤ (argmaxPair xs i b).2 := by
  induction xs with
  | nil => intro i b; simp [argmaxPair]
  | cons x xs ih =>
    intro i b
    by_cases h : x > b.2
    · rw [argmaxPair, if_pos h]
      obtain ⟨h1, h2⟩ := ih (i + 1) (i, x)
      refine ⟨le_of_lt (lt_of_lt_of_le h h1), ?_⟩
      intro s hs
      rcases List.mem_cons.mp hs with rfl | hs
      · exact h1
      · exact h2 s hs
    · rw [argmaxPair, if_neg h]
      obtain ⟨h1, h2⟩ := ih (i + 1) b
      refine ⟨h1, ?_⟩
      intro s hs
      rcases List.mem_cons.mp hs with rfl | hs
      · exact le_trans (not_lt.mp h) h1
      · exact h2 s hs

/-- The value returned by `argmaxPair` is the running best or one of the
remaining elements. -/
theorem argmaxPair_mem (xs : List ℚ) : ∀ (i : Nat) (b : Nat × ℚ),
    (argmaxPair xs i b).2 = b.2 ∨ (argmaxPair xs i b).2 ∈ xs := by
  induction xs with
  | nil => intro i b; simp [argmaxPair]
  | cons x xs ih =>
    intro i b
    by_cases h : x > b.2
    · rw [argmaxPair, if_pos h]
      rcases ih (i + 1) (i, x) with h' | h'
      · exact Or.inr (by rw [h']; exact List.mem_cons_self x xs)
      · exact Or.inr (List.mem_cons_of_mem x h')
    · rw [argmaxPair, if_neg h]
      rcases ih (i + 1) b with h' | h'
      · exact Or.inl h'
      · exact Or.inr (List.mem_cons_of_mem x h')

/-- The index returned by `argmaxPair` is the running best index or an
index of one of the remaining elements. -/
theorem argmaxPair_idx (xs : List ℚ) : ∀ (i : Nat) (b : Nat × ℚ),
    (argmaxPair xs i b).1 = b.1 ∨
      (i ≤ (argmaxPair xs i b).1 ∧ (argmaxPair xs i b).1 < i + xs.length) := by
  induction xs with
  | nil => intro i b; simp [argmaxPair]
  | cons x xs ih =>
    intro i b
    by_cases h : x > b.2
    · rw [argmaxPair, if_pos h]
      rcases ih (i + 1) (i, x) with h' | ⟨h1, h2⟩
      · refine Or.inr ⟨by rw [h'], ?_⟩
        rw [h']
        simp
      · exact Or.inr ⟨le_trans (Nat.le_succ i) h1, by simp only [List.length_cons]; omega⟩
    · rw [argmaxPair, if_neg h]
      rcases ih (i + 1) b with h' | ⟨h1, h2⟩
      · exact Or.inl h'
      · exact Or.inr ⟨le_trans (Nat.le_succ i) h1, by simp only [List.length_cons]; omega⟩

/-- Reading the original list at the index returned by `argmaxPair` yields
the value returned, provided the running best is consistent and `xs` is
the drop of the original list at `i`. -/
theorem argmaxPair_getD (xs : List ℚ) : ∀ (l : List ℚ) (i : Nat) (b : Nat × ℚ),
    l.drop i = xs → l.getD b.1 0 = b.2 →
    l.getD (argmaxPair xs i b).1 0 = (argmaxPair xs i b).2 := by
  induction xs with
  | nil => intro l i b _ hb; simpa [argmaxPair] using hb
  | cons x xs ih =>
    intro l i b hd hb
    have hx : l.getD i 0 = x := by
      have : l[i]? = some x := by
        have h0 : (l.drop i)[0]? = some x := by rw [hd]; simp
        rwa [List.getElem?_drop, Nat.add_zero] at h0
      simp [List.getD_eq_getElem?_getD, this]
    have hd' : l.drop (i + 1) = xs := by
      have : List.drop 1 (List.drop i l) = List.drop (i + 1) l :=
        List.drop_drop 1 i l
      rw [← this, hd, List.drop_one, List.tail_cons]
    by_cases h : x > b.2
    · rw [argmaxPair, if_pos h]
      exact ih l (i + 1) (i, x) hd' hx
    · rw [argmaxPair, if_neg h]
      exact ih l (i + 1) b hd' hb

/-- On a nonempty list, `argmax` returns an index within bounds. -/
theorem argmax_lt_length (l : List ℚ) (h : l ≠ []) : argmax l < l.length := by
  match l, h with
  | x :: xs, _ =>
    rw [argmax]
    rcases argmaxPair_idx xs 1 (0, x) with h' | ⟨_, h2⟩
    · rw [h']; simp
    · simpa [Nat.add_comm] using h2

/-- On a nonempty list, the value at `argmax` is the value `argmaxPair`
computes. -/
theorem getD_argmax (l : List ℚ) (h : l ≠ []) :
    l.getD (argmax l) 0 ∈ l ∧ ∀ s ∈ l, s ≤ l.getD (argmax l) 0 := by
  match l, h with
  | x :: xs, _ =>
    have hval : (x :: xs).getD (argmax (x :: xs)) 0 = (argmaxPair xs 1 (0, x)).2 := by
      rw [argmax]
      exact argmaxPair_getD xs (x :: xs) 1 (0, x) rfl rfl
    constructor
    · rw [hval]
      rcases argmaxPair_mem xs 1 (0, x) with h' | h'
      · rw [h']; exact List.mem_cons_self x xs
      · exact List.mem_cons_of_mem x h'
    · intro s hs
      rw [hval]
      obtain ⟨h1, h2⟩ := argmaxPair_isMax xs 1 (0, x)
      rcases List.mem_cons.mp hs with rfl | hs
      · exact h1
      · exact h2 s hs

/-- On a detection with a nonempty score slice, `confidence = scores[classID]`
is a member of the scores and bounds every score: it is the maximum
predicted class probability. -/
theorem detConfidence_isMax (d : List ℚ) (h : detScores d ≠ []) :
    detConfidence d ∈ detScores d ∧ ∀ s ∈ detScores d, s ≤ detConfidence d := by
  have := getD_argmax (detScores d) h
  rwa [detConfidence, detClassID]

/-- On a detection with an empty score slice the confidence defaults to 0,
which does not exceed `CONFIDENCE`; such a detection is never retained. -/
theorem detConfidence_of_empty (d : List ℚ) (h : detScores d = []) :
    ¬ detConfidence d > CONFIDENCE := by
  rw [detConfidence, h]
  simp only [List.getD_nil]
  decide

/-- A single `parseDetection` step preserves `ParseInv` whenever the
detection's score slice has exactly `L` entries. -/
theorem parseDetection_inv (L : Nat) (H W : ℚ) (d : List ℚ) (acc : ParseOut)
    (hd : (detScores d).length = L) (h : ParseInv L acc) :
    ParseInv L (parseDetection H W d acc) := by
  rw [parseDetection]
  by_cases hc : detConfidence d > CONFIDENCE
  · rw [if_pos hc]
    obtain ⟨h1, h2, h3⟩ := h
    refine ⟨by simpa using h1, by simpa using h2, ?_⟩
    intro c hc'
    rcases List.mem_append.mp hc' with hc' | hc'
    · exact h3 c hc'
    · have hcid : c = detClassID d := by simpa using hc'
      have hne : detScores d ≠ [] := by
        intro hnil
        exact detConfidence_of_empty d hnil hc
      have := argmax_lt_length (detScores d) hne
      rw [hcid, detClassID]
      omega
  · rwa [if_neg hc]

/-- The inner loop of `parse_layers` over one layer output preserves
`ParseInv`. -/
theorem parseOutput_inv (L : Nat) (H W : ℚ) (output : List (List ℚ)) :
    ∀ (acc : ParseOut), (∀ d ∈ output, (detScores d).length = L) →
    ParseInv L acc →
    ParseInv L (output.foldl (fun a d => parseDetection H W d a) acc) := by
  induction output with
  | nil => intro acc _ h; simpa using h
  | cons d output ih =>
    intro acc hd h
    rw [List.foldl_cons]
    exact ih (parseDetection H W d acc)
      (fun d' hd' => hd d' (List.mem_cons_of_mem d hd'))
      (parseDetection_inv L H W d acc (hd d (List.mem_cons_self d output)) h)

/-- `parse_layers` preserves `ParseInv` when every detection in every layer
output carries exactly `L` class scores. -/
theorem parse_layers_inv (L : Nat) (H W : ℚ)
    (layer_outputs : List (List (List ℚ))) :
    ∀ (acc : ParseOut),
    (∀ out ∈ layer_outputs, ∀ d ∈ out, (detScores d).length = L) →
    ParseInv L acc →
    ParseInv L (parse_layers layer_outputs H W acc.1 acc.2.1 acc.2.2) := by
  induction layer_outputs with
  | nil => intro acc _ h; simpa [parse_layers] using h
  | cons out outs ih =>
    intro acc hd h
    have step := parseOutput_inv L H W out acc
      (hd out (List.mem_cons_self out outs)) h
    have ih' := ih (out.foldl (fun a d => parseDetection H W d a) acc)
      (fun o ho d hdo => hd o (List.mem_cons_of_mem out ho) d hdo) step
    simp only [parse_layers, List.foldl_cons, Prod.mk.eta] at ih' ⊢
    exact ih'

/-! ### Properties of `label_frame` -/

/-- Folding the drawing step over a list of indices appends exactly the
drawing operations of those indices, in order. -/
theorem foldl_drawDetection (LABELS : List String) (COLORS : List (List Nat))
    (boxes : List (List Int)) (confidences : List ℚ) (classIDs : List Nat) :
    ∀ (l : List Nat) (img : Frame),
    l.foldl (drawDetection LABELS COLORS boxes confidences classIDs) img
      = { img with ops := img.ops ++
            l.flatMap (drawOpsFor LABELS COLORS boxes confidences classIDs) } := by
  intro l
  induction l with
  | nil => intro img; simp
  | cons i l ih =>
    intro img
    rw [List.foldl_cons, ih]
    simp [drawDetection]

/-- Closed form of `label_frame`: the annotated image is the input image
with, appended, the rectangle and text operations of exactly the indices
kept by the non-maximum-suppression call. -/
theorem label_frame_eq (LABELS : List String) (COLORS : List (List Nat))
    (nms : NMSFun) (image : Frame) (boxes : List (List Int))
    (confidences : List ℚ) (classIDs : List Nat) :
    label_frame LABELS COLORS nms image boxes confidences classIDs
      = { image with
          ops := image.ops
            ++ (nms boxes confidences CONFIDENCE THRESHOLD).flatMap
              (drawOpsFor LABELS COLORS boxes confidences classIDs) } := by
  rw [label_frame]
  by_cases h : (nms boxes confidences CONFIDENCE THRESHOLD).length > 0
  · rw [if_pos h, foldl_drawDetection]
  · rw [if_neg h]
    have hnil : nms boxes confidences CONFIDENCE THRESHOLD = [] :=
      List.length_eq_zero.mp (by omega)
    rw [hnil]
    simp

/-! ### Properties of the frame loop -/

/-- Helper simp forms of `grabbedFrames`. -/
theorem grabbedFrames_nil : grabbedFrames [] = [] := rfl

/-- A failed read ends the grabbed prefix. -/
theorem grabbedFrames_cons_none (rest : List (Option Frame)) :
    grabbedFrames (none :: rest) = [] := rfl

/-- A successful read contributes its frame to the grabbed prefix. -/
theorem grabbedFrames_cons_some (f : Frame) (rest : List (Option Frame)) :
    grabbedFrames (some f :: rest) = f :: grabbedFrames rest := by
  simp [grabbedFrames, List.takeWhile_cons]

/-- The frame loop is the fold of the per-frame body over the grabbed
prefix of the read sequence: it processes the successfully grabbed frames
in read order and stops at the first failed read. -/
theorem frameLoop_eq_foldl (LABELS : List String) (COLORS : List (List Nat))
    (nms : NMSFun) (forward : Frame → List (List (List ℚ))) (capW capH : Nat) :
    ∀ (reads : List (Option Frame)) (st : LoopState),
    frameLoop LABELS COLORS nms forward capW capH reads st
      = (grabbedFrames reads).foldl
          (processFrame LABELS COLORS nms forward capW capH) st := by
  intro reads
  induction reads with
  | nil => intro st; simp [frameLoop, grabbedFrames_nil]
  | cons r rest ih =>
    intro st
    cases r with
    | none => simp [frameLoop, grabbedFrames_cons_none]
    | some f =>
        rw [frameLoop, grabbedFrames_cons_some, List.foldl_cons, ih]

/-- Each processed frame performs exactly one blob construction and one
forward pass. -/
theorem processFrame_counts (LABELS : List String) (COLORS : List (List Nat))
    (nms : NMSFun) (forward : Frame → List (List (List ℚ)))
    (capW capH : Nat) (st : LoopState) (f : Frame) :
    (processFrame LABELS COLORS nms forward capW capH st f).forwardCount
        = st.forwardCount + 1
    ∧ (processFrame LABELS COLORS nms forward capW capH st f).blobCount
        = st.blobCount + 1 := by
  constructor <;> rfl

/-- Over a list of processed frames the inference counters advance by
exactly the number of frames. -/
theorem foldl_processFrame_counts (LABELS : List String)
    (COLORS : List (List Nat)) (nms : NMSFun)
    (forward : Frame → List (List (List ℚ))) (capW capH : Nat) :
    ∀ (l : List Frame) (st : LoopState),
    ((l.foldl (processFrame LABELS COLORS nms forward capW capH) st).forwardCount
        = st.forwardCount + l.length)
    ∧ ((l.foldl (processFrame LABELS COLORS nms forward capW capH) st).blobCount
        = st.blobCount + l.length) := by
  intro l
  induction l with
  | nil => intro st; simp
  | cons f l ih =>
    intro st
    rw [List.foldl_cons]
    obtain ⟨h1, h2⟩ := ih (processFrame LABELS COLORS nms forward capW capH st f)
    obtain ⟨p1, p2⟩ := processFrame_counts LABELS COLORS nms forward capW capH st f
    constructor
    · rw [h1, p1, List.length_cons]; omega
    · rw [h2, p2, List.length_cons]; omega

/-- Processing a frame writes exactly one frame to the writer. -/
theorem processFrame_writtenLen (LABELS : List String)
    (COLORS : List (List Nat)) (nms : NMSFun)
    (forward : Frame → List (List (List ℚ))) (capW capH : Nat)
    (st : LoopState) (f : Frame) :
    writtenLen (processFrame LABELS COLORS nms forward capW capH st f)
      = writtenLen st + 1 := by
  cases h : st.writer <;> simp [processFrame, writtenLen, h]

/-- Over a list of processed frames, exactly one frame per processed frame
is written. -/
theorem foldl_processFrame_writtenLen (LABELS : List String)
    (COLORS : List (List Nat)) (nms : NMSFun)
    (forward : Frame → List (List (List ℚ))) (capW capH : Nat) :
    ∀ (l : List Frame) (st : LoopState),
    writtenLen (l.foldl (processFrame LABELS COLORS nms forward capW capH) st)
      = writtenLen st + l.length := by
  intro l
  induction l with
  | nil => intro st; simp
  | cons f l ih =>
    intro st
    rw [List.foldl_cons, ih,
      processFrame_writtenLen LABELS COLORS nms forward capW capH st f,
      List.length_cons]
    omega

/-- After processing any frame the writer handle exists. -/
theorem processFrame_writer_isSome (LABELS : List String)
    (COLORS : List (List Nat)) (nms : NMSFun)
    (forward : Frame → List (List (List ℚ))) (capW capH : Nat)
    (st : LoopState) (f : Frame) :
    (processFrame LABELS COLORS nms forward capW capH st f).writer.isSome := by
  cases h : st.writer <;> simp [processFrame, h]

/-- Processing frames never discards an existing writer handle. -/
theorem foldl_processFrame_writer_isSome (LABELS : List String)
    (COLORS : List (List Nat)) (nms : NMSFun)
    (forward : Frame → List (List (List ℚ))) (capW capH : Nat) :
    ∀ (l : List Frame) (st : LoopState), st.writer.isSome →
    (l.foldl (processFrame LABELS COLORS nms forward capW capH) st).writer.isSome := by
  intro l
  induction l with
  | nil => intro st h; simpa using h
  | cons f l ih =>
    intro st _
    rw [List.foldl_cons]
    exact ih (processFrame LABELS COLORS nms forward capW capH st f)
      (processFrame_writer_isSome LABELS COLORS nms forward capW capH st f)

/-- Processing a frame either initialises the writer with the notebook's
parameters or keeps the existing ones. -/
theorem processFrame_writerSpec (LABELS : List String)
    (COLORS : List (List Nat)) (nms : NMSFun)
    (forward : Frame → List (List (List ℚ))) (capW capH : Nat)
    (st : LoopState) (f : Frame) (h : writerSpec capW capH st) :
    writerSpec capW capH (processFrame LABELS COLORS nms forward capW capH st f) := by
  cases hw : st.writer with
  | none =>
    intro w hw'
    simp [processFrame, hw] at hw'
    rw [← hw']
    exact ⟨rfl, rfl, rfl, rfl⟩
  | some w0 =>
    intro w hw'
    simp [processFrame, hw] at hw'
    obtain ⟨h1, h2, h3, h4⟩ := h w0 hw
    rw [← hw']
    exact ⟨h1, h2, h3, h4⟩

/-- The writer's construction parameters are stable across the whole loop. -/
theorem foldl_processFrame_writerSpec (LABELS : List String)
    (COLORS : List (List Nat)) (nms : NMSFun)
    (forward : Frame → List (List (List ℚ))) (capW capH : Nat) :
    ∀ (l : List Frame) (st : LoopState), writerSpec capW capH st →
    writerSpec capW capH
      (l.foldl (processFrame LABELS COLORS nms forward capW capH) st) := by
  intro l
  induction l with
  | nil => intro st h; simpa using h
  | cons f l ih =>
    intro st h
    rw [List.foldl_cons]
    exact ih (processFrame LABELS COLORS nms forward capW capH st f)
      (processFrame_writerSpec LABELS COLORS nms forward capW capH st f h)

/-- Once the writer exists, processing more frames never re-initialises it. -/
theorem processFrame_inits_of_isSome (LABELS : List String)
    (COLORS : List (List Nat)) (nms : NMSFun)
    (forward : Frame → List (List (List ℚ))) (capW capH : Nat)
    (st : LoopState) (f : Frame) (h : st.writer.isSome) :
    (processFrame LABELS COLORS nms forward capW capH st f).writerInits
      = st.writerInits := by
  cases hw : st.writer with
  | none => rw [hw] at h; simp at h
  | some w0 => simp [processFrame, hw]

/-- The initialisation count is stable once the writer exists. -/
theorem foldl_processFrame_inits (LABELS : List String)
    (COLORS : List (List Nat)) (nms : NMSFun)
    (forward : Frame → List (List (List ℚ))) (capW capH : Nat) :
    ∀ (l : List Frame) (st : LoopState), st.writer.isSome →
    (l.foldl (processFrame LABELS COLORS nms forward capW capH) st).writerInits
      = st.writerInits := by
  intro l
  induction l with
  | nil => intro st _; rfl
  | cons f l ih =>
    intro st h
    rw [List.foldl_cons,
      ih (processFrame LABELS COLORS nms forward capW capH st f)
        (processFrame_writer_isSome LABELS COLORS nms forward capW capH st f),
      processFrame_inits_of_isSome LABELS COLORS nms forward capW capH st f h]

/-- An in-bounds default read is a member of the list. -/
theorem getD_mem_of_lt {α : Type} (l : List α) (n : Nat) (d : α)
    (h : n < l.length) : l.getD n d ∈ l := by
  rw [List.getD_eq_get?, List.get?_eq_get h]
  exact List.get_mem l n h

/-! ### Claim theorems -/

/-- C2: in `parse_layers`, a candidate detection is retained — its box,
confidence and class id appended to the output lists — if and only if its
maximum predicted class probability (which is what `confidence =
scores[argmax scores]` computes) exceeds the threshold constant
`CONFIDENCE = 0.7`; otherwise the accumulator is unchanged. -/
theorem parse_retained_iff_max_exceeds (H W : ℚ) (d : List ℚ)
    (acc : ParseOut) (h : detScores d ≠ []) :
    CONFIDENCE = 7 / 10
    ∧ (detConfidence d ∈ detScores d ∧ ∀ s ∈ detScores d, s ≤ detConfidence d)
    ∧ (detConfidence d > CONFIDENCE →
        (parseDetection H W d acc).1.length = acc.1.length + 1
        ∧ (parseDetection H W d acc).2.1 = acc.2.1 ++ [detConfidence d]
        ∧ (parseDetection H W d acc).2.2 = acc.2.2 ++ [detClassID d])
    ∧ (¬ detConfidence d > CONFIDENCE → parseDetection H W d acc = acc) := by
  refine ⟨?_, detConfidence_isMax d h, ?_, ?_⟩
  · rw [CONFIDENCE]
    norm_num [mkRat, Rat.normalize]
  · intro hc
    rw [parseDetection, if_pos hc]
    simp
  · intro hc
    rw [parseDetection, if_neg hc]

/-- Witness for C2 on a concrete detection: a nonempty score slice whose
maximum 9/10 exceeds 0.7, so the class id is appended. -/
theorem parse_retained_iff_max_exceeds_witness :
    detScores exDet ≠ []
    ∧ detConfidence exDet > CONFIDENCE
    ∧ (parseDetection 416 416 exDet ([], [], [])).2.2 = [detClassID exDet] :=
  ⟨by decide, by decide,
    ((parse_retained_iff_max_exceeds 416 416 exDet ([], [], [])
      (by decide)).2.2.1 (by decide)).2.2⟩

/-- C7: for a retained detection, the appended bounding box arises from
scaling the first four components by `(W, H, W, H)`, truncating each to an
integer, and deriving the top-left corner as `x = int(centerX - width/2)`,
`y = int(centerY - height/2)`; the appended entry is
`[x, y, int(width), int(height)]`. -/
theorem parse_box_formula (H W : ℚ) (d0 d1 d2 d3 : ℚ) (rest : List ℚ)
    (acc : ParseOut) (h : detConfidence (d0 :: d1 :: d2 :: d3 :: rest) > CONFIDENCE) :
    (parseDetection H W (d0 :: d1 :: d2 :: d3 :: rest) acc).1
      = acc.1 ++
        [[qtrunc ((qtrunc (d0 * W) : ℚ) - (qtrunc (d2 * W) : ℚ) / 2),
          qtrunc ((qtrunc (d1 * H) : ℚ) - (qtrunc (d3 * H) : ℚ) / 2),
          qtrunc (d2 * W), qtrunc (d3 * H)]] := by
  rw [parseDetection, if_pos h]
  rfl

/-- Witness for C7 at the concrete detection `exDet`, whose confidence
9/10 exceeds the threshold. -/
theorem parse_box_formula_witness :
    detConfidence exDet > CONFIDENCE
    ∧ (parseDetection 416 416 exDet ([], [], [])).1
      = [[qtrunc ((qtrunc (mkRat 1 2 * 416) : ℚ) - (qtrunc (mkRat 1 4 * 416) : ℚ) / 2),
          qtrunc ((qtrunc (mkRat 1 2 * 416) : ℚ) - (qtrunc (mkRat 1 4 * 416) : ℚ) / 2),
          qtrunc (mkRat 1 4 * 416), qtrunc (mkRat 1 4 * 416)]] :=
  ⟨by decide,
    parse_box_formula 416 416 (mkRat 1 2) (mkRat 1 2) (mkRat 1 4) (mkRat 1 4)
      [mkRat 9 10, mkRat 9 10] ([], [], []) (by decide)⟩

/-- C8: the class-label list is the file contents stripped of surrounding
whitespace and split on newline, and the display-colour table has exactly
one 3-component row per label, so both are indexed by class id over the
same range: for any label list — in particular the loaded one — the
colour-table length equals the label count and every in-range row has
exactly 3 components. -/
theorem labels_colors_aligned (contents : String) (rand : Nat → Nat → Nat) :
    (∀ labels : List String,
      (COLORS_of rand labels).length = labels.length
      ∧ (∀ i, i < labels.length ↔ i < (COLORS_of rand labels).length)
      ∧ ∀ i, i < labels.length →
          ((COLORS_of rand labels).getD i []).length = 3)
    ∧ (COLORS_of rand (LABELS_of contents)).length
        = (LABELS_of contents).length := by
  have key : ∀ labels : List String,
      (COLORS_of rand labels).length = labels.length
      ∧ (∀ i, i < labels.length ↔ i < (COLORS_of rand labels).length)
      ∧ ∀ i, i < labels.length →
          ((COLORS_of rand labels).getD i []).length = 3 := by
    intro labels
    have hlen : (COLORS_of rand labels).length = labels.length := by
      simp [COLORS_of]
    refine ⟨hlen, fun i => by rw [hlen], ?_⟩
    intro i hi
    have h1 : (COLORS_of rand labels).get? i
        = some ((List.range 3).map fun j => rand i j % 255) := by
      rw [COLORS_of, List.get?_map, List.get?_range hi]
      rfl
    rw [List.getD_eq_get?, h1]
    simp
  exact ⟨key, (key (LABELS_of contents)).1⟩

/-- Witness for C8: a concrete two-label list has a two-row colour table
whose row 1 has exactly 3 components, and the loaded-label alignment holds
for a concrete file content. -/
theorem labels_colors_aligned_witness :
    (COLORS_of (fun i j => i + j) ["car", "person"]).length = 2
    ∧ ((COLORS_of (fun i j => i + j) ["car", "person"]).getD 1 []).length = 3
    ∧ (COLORS_of (fun i j => i + j) (LABELS_of "car")).length
        = (LABELS_of "car").length :=
  ⟨by rw [(labels_colors_aligned "car" (fun i j => i + j)).1 ["car", "person"]
        |>.1]
      rfl,
   (labels_colors_aligned "car" (fun i j => i + j)).1 ["car", "person"]
     |>.2.2 1 (by decide),
   (labels_colors_aligned "car" (fun i j => i + j)).2⟩

/-- C6: `label_frame` appends drawing operations for exactly the indices
kept by the non-maximum-suppression call; when no index is kept the image
is unchanged; and, whenever the kept indices are in range, every annotated
box is one of the input boxes. -/
theorem label_frame_draws_kept_only (LABELS : List String)
    (COLORS : List (List Nat)) (nms : NMSFun) (image : Frame)
    (boxes : List (List Int)) (confidences : List ℚ) (classIDs : List Nat) :
    (label_frame LABELS COLORS nms image boxes confidences classIDs
      = { image with
          ops := image.ops
            ++ (nms boxes confidences CONFIDENCE THRESHOLD).flatMap
              (drawOpsFor LABELS COLORS boxes confidences classIDs) })
    ∧ (nms boxes confidences CONFIDENCE THRESHOLD = [] →
        label_frame LABELS COLORS nms image boxes confidences classIDs = image)
    ∧ ((∀ i ∈ nms boxes confidences CONFIDENCE THRESHOLD, i < boxes.length) →
        ∀ i ∈ nms boxes confidences CONFIDENCE THRESHOLD,
          boxes.getD i [] ∈ boxes) := by
  refine ⟨label_frame_eq LABELS COLORS nms image boxes confidences classIDs,
    ?_, ?_⟩
  · intro h
    rw [label_frame_eq, h]
    simp
  · intro h i hi
    exact getD_mem_of_lt boxes i [] (h i hi)

/-- Witness for C6: with a suppression call keeping no index the image is
unchanged, and with one keeping index 0 the annotated box is the input
box. -/
theorem label_frame_draws_kept_only_witness :
    label_frame [] [] (fun _ _ _ _ => []) exFrame1 [] [] [] = exFrame1
    ∧ ∀ i ∈ exNMS [[1, 2, 3, 4]] [mkRat 9 10] CONFIDENCE THRESHOLD,
        ([[1, 2, 3, 4]] : List (List Int)).getD i []
          ∈ ([[1, 2, 3, 4]] : List (List Int)) :=
  ⟨(label_frame_draws_kept_only [] [] (fun _ _ _ _ => [])
      exFrame1 [] [] []).2.1 rfl,
   (label_frame_draws_kept_only [] [] exNMS exFrame1 [[1, 2, 3, 4]]
      [mkRat 9 10] []).2.2 (by decide)⟩

/-- C9: every index access of `label_frame` — `boxes[i]`, `confidences[i]`,
`classIDs[i]`, `LABELS[classIDs[i]]`, `COLORS[classIDs[i]]` — is in bounds
for every index returned by suppression, provided the suppression indices
are in range of `boxes` and the three lists come from `parse_layers` run
on detections carrying exactly `len(LABELS)` class scores (so class ids,
being argmaxes over `detection[5:]`, are below the label count). -/
theorem label_frame_accesses_in_bounds (LABELS : List String)
    (COLORS : List (List Nat)) (nms : NMSFun)
    (layer_outputs : List (List (List ℚ))) (H W : ℚ) (acc : ParseOut)
    (boxes : List (List Int)) (confidences : List ℚ) (classIDs : List Nat)
    (hC : COLORS.length = LABELS.length)
    (hdet : ∀ out ∈ layer_outputs, ∀ d ∈ out,
        (detScores d).length = LABELS.length)
    (hacc : ParseInv LABELS.length acc)
    (hout : (boxes, confidences, classIDs)
        = parse_layers layer_outputs H W acc.1 acc.2.1 acc.2.2)
    (hnms : ∀ i ∈ nms boxes confidences CONFIDENCE THRESHOLD,
        i < boxes.length) :
    ∀ i ∈ nms boxes confidences CONFIDENCE THRESHOLD,
      i < boxes.length ∧ i < confidences.length ∧ i < classIDs.length
      ∧ classIDs.getD i 0 < LABELS.length
      ∧ classIDs.getD i 0 < COLORS.length := by
  have hinv : ParseInv LABELS.length (boxes, confidences, classIDs) := by
    rw [hout]
    exact parse_layers_inv LABELS.length H W layer_outputs acc hdet hacc
  obtain ⟨h1, h2, h3⟩ := hinv
  dsimp only at h1 h2 h3
  intro i hi
  have hb := hnms i hi
  refine ⟨hb, by omega, by omega, ?_, ?_⟩
  · exact h3 _ (getD_mem_of_lt classIDs i 0 (by omega))
  · rw [hC]
    exact h3 _ (getD_mem_of_lt classIDs i 0 (by omega))

/-- Witness for C9 on a concrete run: one label, one colour row, one
detection with one class score above threshold, suppression keeping every
box. -/
theorem label_frame_accesses_in_bounds_witness :
    (∀ out ∈ [[exDet]], ∀ d ∈ out, (detScores d).length = (["a"] : List String).length)
    ∧ ParseInv (["a"] : List String).length (([], [], []) : ParseOut)
    ∧ (∀ i ∈ exNMS (parse_layers [[exDet]] 416 416 [] [] []).1
          (parse_layers [[exDet]] 416 416 [] [] []).2.1 CONFIDENCE THRESHOLD,
        i < (parse_layers [[exDet]] 416 416 [] [] []).1.length)
    ∧ ∀ i ∈ exNMS (parse_layers [[exDet]] 416 416 [] [] []).1
          (parse_layers [[exDet]] 416 416 [] [] []).2.1 CONFIDENCE THRESHOLD,
        i < (parse_layers [[exDet]] 416 416 [] [] []).1.length
        ∧ i < (parse_layers [[exDet]] 416 416 [] [] []).2.1.length
        ∧ i < (parse_layers [[exDet]] 416 416 [] [] []).2.2.length
        ∧ (parse_layers [[exDet]] 416 416 [] [] []).2.2.getD i 0
            < (["a"] : List String).length
        ∧ (parse_layers [[exDet]] 416 416 [] [] []).2.2.getD i 0
            < ([[1, 2, 3]] : List (List Nat)).length :=
  ⟨by decide, ⟨rfl, rfl, by intro c hc; simp at hc⟩, by decide,
   label_frame_accesses_in_bounds ["a"] [[1, 2, 3]] exNMS [[exDet]] 416 416
     ([], [], [])
     (parse_layers [[exDet]] 416 416 [] [] []).1
     (parse_layers [[exDet]] 416 416 [] [] []).2.1
     (parse_layers [[exDet]] 416 416 [] [] []).2.2
     rfl (by decide) ⟨rfl, rfl, by intro c hc; simp at hc⟩ rfl (by decide)⟩

/-- Combined writer facts for a loop run whose first read grabs a frame:
the writer exists, was initialised exactly once, carries the notebook's
construction parameters — MJPG, 30 fps, size `(capH, capW)` in transposed
order — and received one written frame per grabbed frame. -/
theorem frameLoop_writer_facts (LABELS : List String)
    (COLORS : List (List Nat)) (nms : NMSFun)
    (forward : Frame → List (List (List ℚ))) (capW capH : Nat)
    (f : Frame) (rest : List (Option Frame)) :
    ∃ w, (frameLoop LABELS COLORS nms forward capW capH
            (some f :: rest) initState).writer = some w
      ∧ (frameLoop LABELS COLORS nms forward capW capH
            (some f :: rest) initState).writerInits = 1
      ∧ w.fourcc = "MJPG" ∧ w.fps = 30 ∧ w.frameSize = (capH, capW)
      ∧ w.isColor = true
      ∧ w.written.length = (grabbedFrames (some f :: rest)).length := by
  have heq : frameLoop LABELS COLORS nms forward capW capH
      (some f :: rest) initState
      = (grabbedFrames rest).foldl
          (processFrame LABELS COLORS nms forward capW capH)
          (processFrame LABELS COLORS nms forward capW capH initState f) := by
    rw [frameLoop_eq_foldl, grabbedFrames_cons_some, List.foldl_cons]
  have hsome : (frameLoop LABELS COLORS nms forward capW capH
      (some f :: rest) initState).writer.isSome := by
    rw [heq]
    exact foldl_processFrame_writer_isSome LABELS COLORS nms forward capW capH
      (grabbedFrames rest) _
      (processFrame_writer_isSome LABELS COLORS nms forward capW capH initState f)
  obtain ⟨w, hw⟩ := Option.isSome_iff_exists.mp hsome
  have hspec : writerSpec capW capH (frameLoop LABELS COLORS nms forward capW
      capH (some f :: rest) initState) := by
    rw [heq, ← List.foldl_cons]
    exact foldl_processFrame_writerSpec LABELS COLORS nms forward capW capH
      (f :: grabbedFrames rest) initState
      (fun w hw => by simp [initState] at hw)
  have hinits : (frameLoop LABELS COLORS nms forward capW capH
      (some f :: rest) initState).writerInits = 1 := by
    rw [heq,
      foldl_processFrame_inits LABELS COLORS nms forward capW capH
        (grabbedFrames rest) _
        (processFrame_writer_isSome LABELS COLORS nms forward capW capH
          initState f)]
    cases h0 : initState.writer with
    | none => simp [processFrame, h0, initState]
    | some w0 => simp [initState] at h0
  have hlen : writtenLen (frameLoop LABELS COLORS nms forward capW capH
      (some f :: rest) initState)
      = (grabbedFrames (some f :: rest)).length := by
    rw [heq, ← List.foldl_cons,
      foldl_processFrame_writtenLen LABELS COLORS nms forward capW capH
        (f :: grabbedFrames rest) initState,
      grabbedFrames_cons_some]
    simp [writtenLen, initState]
  obtain ⟨s1, s2, s3, s4⟩ := hspec w hw
  refine ⟨w, hw, hinits, s1, s2, s3, s4, ?_⟩
  rw [← hlen, writtenLen, hw]

/-- C5: for every finite read sequence the frame loop terminates — it is a
total function of the reads — processing exactly the frames grabbed before
the first failed read, sequentially in read order (the fold), with exactly
one blob construction and one forward-pass call per grabbed frame. -/
theorem frameLoop_one_inference_per_frame (LABELS : List String)
    (COLORS : List (List Nat)) (nms : NMSFun)
    (forward : Frame → List (List (List ℚ))) (capW capH : Nat)
    (reads : List (Option Frame)) (st : LoopState) :
    frameLoop LABELS COLORS nms forward capW capH reads st
      = (grabbedFrames reads).foldl
          (processFrame LABELS COLORS nms forward capW capH) st
    ∧ (frameLoop LABELS COLORS nms forward capW capH reads st).forwardCount
        = st.forwardCount + (grabbedFrames reads).length
    ∧ (frameLoop LABELS COLORS nms forward capW capH reads st).blobCount
        = st.blobCount + (grabbedFrames reads).length := by
  refine ⟨frameLoop_eq_foldl LABELS COLORS nms forward capW capH reads st,
    ?_, ?_⟩
  · rw [frameLoop_eq_foldl]
    exact (foldl_processFrame_counts LABELS COLORS nms forward capW capH
      (grabbedFrames reads) st).1
  · rw [frameLoop_eq_foldl]
    exact (foldl_processFrame_counts LABELS COLORS nms forward capW capH
      (grabbedFrames reads) st).2

/-- C4: when the frame-count property read fails the script prints the two
warnings and sets `total = -1`, and the rest of the run — the loop outcome
and everything after the first printed lines — is identical to a run whose
property read succeeds with any value `t`. -/
theorem total_fallback_harmless (LABELS : List String)
    (COLORS : List (List Nat)) (nms : NMSFun)
    (forward : Frame → List (List (List ℚ))) (cap : VideoCapture) (t : Int) :
    (runVideoScript LABELS COLORS nms forward
        { cap with frameCountProp := none }).2.1 = -1
    ∧ (runVideoScript LABELS COLORS nms forward
        { cap with frameCountProp := none }).1.take 2
        = ["Error: could not determine # of frames in video",
           "Error: no approx. completion time can be provided"]
    ∧ (runVideoScript LABELS COLORS nms forward
        { cap with frameCountProp := none }).2.2
        = (runVideoScript LABELS COLORS nms forward
            { cap with frameCountProp := some t }).2.2
    ∧ (runVideoScript LABELS COLORS nms forward
        { cap with frameCountProp := none }).1.drop 2
        = (runVideoScript LABELS COLORS nms forward
            { cap with frameCountProp := some t }).1.drop 1 := by
  obtain ⟨reads, cw, ch, fcp⟩ := cap
  simp only [runVideoScript]
  cases hW : (frameLoop LABELS COLORS nms forward cw ch reads initState).writer
    <;> simp [hW]

/-- C10: on any video whose first read grabs a frame, the output writer is
initialised exactly once — on the first processed frame — with MJPG
encoding, 30 frames per second, and frame size
`(capture frame height, capture frame width)`, the capture dimensions in
transposed order, and every annotated frame is written to this single
writer: one written frame per grabbed frame. -/
theorem writer_init_once_mjpg_transposed (LABELS : List String)
    (COLORS : List (List Nat)) (nms : NMSFun)
    (forward : Frame → List (List (List ℚ))) (cap : VideoCapture)
    (f : Frame) (rest : List (Option Frame)) (h : cap.reads = some f :: rest) :
    ∃ w, (frameLoop LABELS COLORS nms forward cap.capWidth cap.capHeight
            cap.reads initState).writer = some w
      ∧ (frameLoop LABELS COLORS nms forward cap.capWidth cap.capHeight
            cap.reads initState).writerInits = 1
      ∧ w.fourcc = "MJPG" ∧ w.fps = 30
      ∧ w.frameSize = (cap.capHeight, cap.capWidth)
      ∧ w.isColor = true
      ∧ w.written.length = (grabbedFrames cap.reads).length := by
  rw [h]
  exact frameLoop_writer_facts LABELS COLORS nms forward cap.capWidth
    cap.capHeight f rest

/-- Witness for C10 at a concrete one-frame video. -/
theorem writer_init_once_mjpg_transposed_witness :
    (⟨[some exFrame1], 640, 480, some 1⟩ : VideoCapture).reads
        = some exFrame1 :: []
    ∧ ∃ w, (frameLoop ["car"] [[0, 0, 0]] exNMS exForward 640 480
              [some exFrame1] initState).writer = some w
        ∧ (frameLoop ["car"] [[0, 0, 0]] exNMS exForward 640 480
              [some exFrame1] initState).writerInits = 1
        ∧ w.fourcc = "MJPG" ∧ w.fps = 30 ∧ w.frameSize = (480, 640)
        ∧ w.isColor = true
        ∧ w.written.length = (grabbedFrames [some exFrame1]).length :=
  ⟨rfl, writer_init_once_mjpg_transposed ["car"] [[0, 0, 0]] exNMS exForward
    ⟨[some exFrame1], 640, 480, some 1⟩ exFrame1 [] rfl⟩

/-- C3 counterexample: on a video from which no frame can be read the
writer is never initialised, so `writer.release()` raises an
`AttributeError` — contradicting the claim that for every input video both
handles are released exactly once without raising an error. -/
theorem empty_video_release_raises :
    (runVideoScript [] [] exNMS (fun _ => [])
        ⟨[], 640, 480, some 0⟩).2.2
      = Except.error "AttributeError: NoneType object has no attribute release" :=
  rfl

/-- C3 amended: on every input video from which at least one frame is
read, the capture and writer handles are each released exactly once at the
end of the loop without raising an error, and the writer was initialised
exactly once. -/
theorem handles_released_once_nonempty (LABELS : List String)
    (COLORS : List (List Nat)) (nms : NMSFun)
    (forward : Frame → List (List (List ℚ))) (cap : VideoCapture)
    (f : Frame) (rest : List (Option Frame)) (h : cap.reads = some f :: rest) :
    ∃ e : ScriptEnd,
      (runVideoScript LABELS COLORS nms forward cap).2.2 = Except.ok e
      ∧ e.writerReleases = 1 ∧ e.capReleases = 1
      ∧ e.state.writerInits = 1 := by
  obtain ⟨w, hw, hinits, _⟩ := frameLoop_writer_facts LABELS COLORS nms
    forward cap.capWidth cap.capHeight f rest
  have hw' : (frameLoop LABELS COLORS nms forward cap.capWidth cap.capHeight
      cap.reads initState).writer = some w := by
    rw [h]; exact hw
  refine ⟨⟨frameLoop LABELS COLORS nms forward cap.capWidth cap.capHeight
      cap.reads initState, 1, 1⟩, ?_, rfl, rfl, ?_⟩
  · simp only [runVideoScript]
    rw [hw']
  · show (frameLoop LABELS COLORS nms forward cap.capWidth cap.capHeight
        cap.reads initState).writerInits = 1
    rw [h]
    exact hinits

/-- Witness for the amended C3 at a concrete one-frame video. -/
theorem handles_released_once_nonempty_witness :
    (⟨[some exFrame1], 640, 480, some 1⟩ : VideoCapture).reads
        = some exFrame1 :: []
    ∧ ∃ e : ScriptEnd,
        (runVideoScript ["car"] [[0, 0, 0]] exNMS exForward
            ⟨[some exFrame1], 640, 480, some 1⟩).2.2 = Except.ok e
        ∧ e.writerReleases = 1 ∧ e.capReleases = 1
        ∧ e.state.writerInits = 1 :=
  ⟨rfl, handles_released_once_nonempty ["car"] [[0, 0, 0]] exNMS exForward
    ⟨[some exFrame1], 640, 480, some 1⟩ exFrame1 [] rfl⟩

/-- C1: contrary to the claim that each frame's `parse_layers` call (with
its default arguments) returns exactly that frame's detections, the
mutable default-argument lists persist across calls: on a two-frame video
whose first frame has one above-threshold detection and whose second frame
has none, the second frame's `parse_layers` result still contains the
first frame's class id and confidence, while parsing the second frame's
layer outputs from fresh lists yields empty lists. -/
theorem parse_layers_accumulates_across_frames :
    ((frameLoop ["car"] [[0, 0, 0]] exNMS exForward 416 416
        [some exFrame1, some exFrame2] initState).parsedTrace.getD 1
          ([], [], [])).2.2 = [0]
    ∧ ((frameLoop ["car"] [[0, 0, 0]] exNMS exForward 416 416
        [some exFrame1, some exFrame2] initState).parsedTrace.getD 1
          ([], [], [])).2.1 = [mkRat 9 10]
    ∧ (parse_layers (exForward exFrame2) 416 416 [] [] []).2.2 = []
    ∧ (parse_layers (exForward exFrame2) 416 416 [] [] []).2.1 = [] := by
  refine ⟨?_, ?_, ?_, ?_⟩ <;> decide
